import Mathlib

/-!
Shallow embedding of `src/app/parse.py` (a quotes-site crawler) and proofs
of the specification claims about it.

The Python module fetches a paginated quotes site, extracts quote records
and author-profile links from each listing page, resolves every distinct
author at most once through a cache, and finally writes two CSV files.
Network fetching and HTML parsing are external collaborators; here they are
modelled by a `Site` record of pure fetch functions returning either a
pre-parsed document or an error, exactly the information the Python code
extracts with BeautifulSoup selectors.
-/

namespace Scrape

/-- `Quote` dataclass: `text`, `author`, `tags` (parse.py lines 14-18). -/
structure Quote where
  text : String
  author : String
  tags : List String
deriving DecidableEq, Repr

/-- `Author` dataclass: four string fields (parse.py lines 21-26). -/
structure Author where
  name : String
  birth_date : String
  birth_location : String
  description : String
deriving DecidableEq, Repr

/-- Exceptions a fetch can raise: `requests.RequestException` (transport:
network failure or non-success HTTP status via `raise_for_status`), or any
other exception from a collaborator (caught by `except Exception` in `main`). -/
inductive CrawlError where
  | transport (msg : String)
  | other (msg : String)
deriving DecidableEq, Repr

instance {ε α : Type} [DecidableEq ε] [DecidableEq α] : DecidableEq (Except ε α) :=
  fun a b =>
    match a, b with
    | .error e1, .error e2 =>
      if h : e1 = e2 then isTrue (by rw [h])
      else isFalse (fun hc => h (by injection hc))
    | .ok a1, .ok a2 =>
      if h : a1 = a2 then isTrue (by rw [h])
      else isFalse (fun hc => h (by injection hc))
    | .error _, .ok _ => isFalse (fun hc => Except.noConfusion hc)
    | .ok _, .error _ => isFalse (fun hc => Except.noConfusion hc)

/-- One quote container (`.quote` div) of a listing page, as seen through the
selectors of `get_quotes_from_page`: `.text`, `.author`,
`a[href*='/author/']` (each possibly absent), and the `.tag` texts. -/
structure QuoteEntry where
  text? : Option String
  author? : Option String
  authorHref? : Option String
  tags : List String
deriving DecidableEq, Repr

/-- A parsed listing page: its quote containers in document order and the
`.next > a` href when present. -/
structure ListingPage where
  entries : List QuoteEntry
  nextHref? : Option String
deriving DecidableEq, Repr

/-- A parsed author page, as seen through the selectors of
`get_author_info`: each of the four elements possibly absent. -/
structure AuthorPage where
  authorTitle? : Option String
  bornDate? : Option String
  bornLocation? : Option String
  descriptionText? : Option String
deriving DecidableEq, Repr

/-- The fetch collaborator (`requests.get` + BeautifulSoup), one pure
function per document kind. An `Except.error` models the exception raised
by `requests.get` or `raise_for_status`. -/
structure Site where
  fetchListing : String → Except CrawlError ListingPage
  fetchAuthor : String → Except CrawlError AuthorPage

/-- parse.py line 11. -/
def BASE_URL : String := "https://quotes.toscrape.com"

/-- Models `str.startswith` at the character level (the stdlib
`String.startsWith` is byte-position based and does not reduce in the
kernel). -/
def strStartsWith (s p : String) : Bool :=
  p.data.isPrefixOf s.data

/-- Models `urllib.parse.urljoin(base, href)` (standard library, not part of
the repository) for the href shapes that occur here: an absolute href is
returned unchanged, a root-relative href is appended to the base, any other
href is appended after a slash (`BASE_URL` has no path component). -/
def urljoin (base href : String) : String :=
  if strStartsWith href "http://" || strStartsWith href "https://" then href
  else if strStartsWith href "/" then base ++ href
  else base ++ "/" ++ href

/-- The per-entry extraction loop of `get_quotes_from_page` (lines 38-52):
entries missing any of text / author / author-link are skipped (`continue`),
otherwise the entry yields a `Quote` and an absolute author URL, in document
order. Returns (quotes_data, author_links). -/
def scanEntries : List QuoteEntry → List Quote × List String
  | [] => ([], [])
  | e :: rest =>
    let r := scanEntries rest
    match e.text?, e.author?, e.authorHref? with
    | some t, some a, some href =>
      (⟨t, a, e.tags⟩ :: r.1, urljoin BASE_URL href :: r.2)
    | _, _, _ => r

/-- `get_quotes_from_page` (lines 29-57): fetch the listing page
(propagating any fetch error), extract the retained quotes and author
links, and resolve the next-page URL from the `.next > a` control. -/
def get_quotes_from_page (site : Site) (url : String) :
    Except CrawlError (List Quote × Option String × List String) :=
  match site.fetchListing url with
  | .error e => .error e
  | .ok soup =>
    let qd := scanEntries soup.entries
    let next_url := soup.nextHref?.map (urljoin BASE_URL)
    .ok (qd.1, next_url, qd.2)

/-- `safe_get` inside `get_author_info` (lines 66-72): the element's text
when present, otherwise the empty string (after printing a warning). -/
def safe_get (tag? : Option String) : String :=
  match tag? with
  | some tag => tag
  | none => ""

/-- `get_author_info` (lines 60-79): fetch the author page — a fetch error
propagates (`raise_for_status`) — then extract the four fields
independently via `safe_get`. -/
def get_author_info (site : Site) (url : String) : Except CrawlError Author :=
  match site.fetchAuthor url with
  | .error e => .error e
  | .ok soup =>
    .ok ⟨safe_get soup.authorTitle?, safe_get soup.bornDate?,
      safe_get soup.bornLocation?, safe_get soup.descriptionText?⟩

/-- The value `main` ends up with for one author URL (lines 98-105): the
parsed `Author` on success, and an all-empty `Author` when
`get_author_info` raised (both `except` arms build the same record). -/
def resolve_author (site : Site) (url : String) : Author :=
  match get_author_info site url with
  | .ok a => a
  | .error _ => ⟨"", "", "", ""⟩

/-- The `authors_cache` dict: insertion-ordered, keyed by author URL. -/
abbrev Cache := List (String × Author)

/-- Lookup in an insertion-ordered association list (models Python dict
membership / indexing; also used for mock sites). -/
def assocFind? {α : Type} : List (String × α) → String → Option α
  | [], _ => none
  | (k, v) :: rest, u => if k = u then some v else assocFind? rest u

/-- Observable steps of a run, in order: a listing-page fetch, an
author-page fetch, and the `time.sleep(0.05)` pacing delay. -/
inductive Event where
  | pageFetch (url : String)
  | authorFetch (url : String)
  | sleep
deriving DecidableEq, Repr

/-- Worker for `dedupFirst`: keeps the elements not seen before. -/
def dedupFirstAux (seen : List String) : List String → List String
  | [] => []
  | x :: xs =>
    if x ∈ seen then dedupFirstAux seen xs
    else x :: dedupFirstAux (x :: seen) xs

/-- Models `set(author_links)` (line 96): the distinct links of the page.
Python iterates a `set` in an unspecified order; first-occurrence order is
chosen as a deterministic stand-in (no claim depends on this order). -/
def dedupFirst (links : List String) : List String :=
  dedupFirstAux [] links

/-- The per-page author loop of `main` (lines 96-108): for each distinct
link not yet in the cache, resolve the author (fetch event), insert the
result into the cache, and sleep. Returns the updated cache and the events
emitted. -/
def processPage (site : Site) : List String → Cache → Cache × List Event
  | [], cache => (cache, [])
  | link :: rest, cache =>
    if (assocFind? cache link).isSome then processPage site rest cache
    else
      let r := processPage site rest (cache ++ [(link, resolve_author site link)])
      (r.1, .authorFetch link :: .sleep :: r.2)

/-- Result of the `while url:` loop of `main`: normal exhaustion with the
accumulated state, abort with the uncaught listing-fetch error, or fuel
exhaustion (the Python loop has no bound; fuel makes the model total). -/
inductive CrawlResult where
  | done (all_quotes : List Quote) (authors_cache : Cache)
  | aborted (e : CrawlError)
  | outOfFuel
deriving DecidableEq, Repr

/-- The `while url:` loop of `main` (lines 91-110). Python's `while url`
is false for both `None` and `""`. Each iteration fetches the current page
(an error propagates out of the loop), appends its quotes, resolves the
page's new authors, and advances to the reported next URL. -/
def crawl (site : Site) : Nat → Option String → List Quote → Cache →
    CrawlResult × List Event
  | _, none, qs, cache => (.done qs cache, [])
  | fuel, some url, qs, cache =>
    if url = "" then (.done qs cache, [])
    else
      match fuel with
      | 0 => (.outOfFuel, [])
      | f + 1 =>
        match get_quotes_from_page site url with
        | .error e => (.aborted e, [.pageFetch url])
        | .ok (pageQs, next_url, links) =>
          let pr := processPage site (dedupFirst links) cache
          let r := crawl site f next_url (qs ++ pageQs) pr.1
          (r.1, .pageFetch url :: (pr.2 ++ r.2))

/-- The quotes-CSV tags cell: `", ".join(q.tags)` (line 117). -/
def joinTags (tags : List String) : String :=
  String.intercalate ", " tags

/-- One quotes-CSV row (line 117): `[q.text, q.author, ", ".join(q.tags)]`. -/
def csvQuoteRow (q : Quote) : List String :=
  [q.text, q.author, joinTags q.tags]

/-- One authors-CSV row (lines 124-129). -/
def csvAuthorRow (a : Author) : List String :=
  [a.name, a.birth_date, a.birth_location, a.description]

/-- Everything a successful run produces: the accumulated state and the two
CSV files as header-plus-rows. -/
structure RunSuccess where
  all_quotes : List Quote
  authors_cache : Cache
  quotesCsv : List (List String)
  authorsCsv : List (List String)
deriving DecidableEq, Repr

/-- Outcome of `main`: the CSV files are written only on normal loop
exhaustion; an uncaught listing-fetch error aborts before any write. -/
inductive RunOutcome where
  | finished (r : RunSuccess)
  | aborted (e : CrawlError)
  | outOfFuel
deriving DecidableEq, Repr

/-- `main` (lines 82-131): run the crawl loop from `BASE_URL` with empty
accumulators; on normal exhaustion build both CSV files (quotes in
accumulation order, authors in cache-insertion order). -/
def main (site : Site) (fuel : Nat) : RunOutcome × List Event :=
  let r := crawl site fuel (some BASE_URL) [] []
  match r.1 with
  | .done all_quotes authors_cache =>
    (.finished
      { all_quotes := all_quotes
        authors_cache := authors_cache
        quotesCsv := ["text", "author", "tags"] :: all_quotes.map csvQuoteRow
        authorsCsv := ["name", "birth_date", "birth_location", "description"] ::
          authors_cache.map (fun p => csvAuthorRow p.2) }, r.2)
  | .aborted e => (.aborted e, r.2)
  | .outOfFuel => (.outOfFuel, r.2)

/-- The listing pages actually visited, in order, read off the event trace. -/
def visitedUrls (evs : List Event) : List String :=
  evs.filterMap fun ev =>
    match ev with
    | .pageFetch u => some u
    | _ => none

/-- Number of author-fetch events for URL `u` in a trace. -/
def countAF (u : String) : List Event → Nat
  | [] => 0
  | .authorFetch v :: rest => (if v = u then 1 else 0) + countAF u rest
  | _ :: rest => countAF u rest

/-- The quotes a given listing page contributes (empty if its fetch fails). -/
def pageQuotes (site : Site) (u : String) : List Quote :=
  match site.fetchListing u with
  | .ok soup => (scanEntries soup.entries).1
  | .error _ => []

/-- Whether the crawl loop ran to normal exhaustion. -/
def CrawlResult.isDone : CrawlResult → Bool
  | .done _ _ => true
  | _ => false

/-- The trace property the pacing claim asserts: wherever an author-fetch
event occurs, the very next event is the pacing sleep. -/
def SleepPaced (l : List Event) : Prop :=
  ∀ (pre : List Event) (u : String) (post : List Event),
    l = pre ++ .authorFetch u :: post → ∃ rest, post = .sleep :: rest

/-- `chain` describes a finite acyclic page chain for `site`: each listed URL
is non-empty, already absolute (so `urljoin` leaves it unchanged), fetches to
the listed page, and that page's next control names the following chain entry
(none for the last entry). -/
def isChain (site : Site) : List (String × ListingPage) → Prop
  | [] => True
  | (u, p) :: rest =>
    u ≠ "" ∧ urljoin BASE_URL u = u ∧ site.fetchListing u = .ok p ∧
      (match rest with
       | [] => p.nextHref? = none
       | (u2, _) :: _ => p.nextHref? = some u2) ∧
      isChain site rest

/-- The URL the crawl starts from when following a chain (none if empty). -/
def headUrl? : List (String × ListingPage) → Option String
  | [] => none
  | (u, _) :: _ => some u

/-- The spec-side reader: Python `s.split(", ")`, modelled at the character
level as a left-to-right scan for the two-character separator. -/
def splitCommaSpace : List Char → List (List Char)
  | [] => [[]]
  | ',' :: ' ' :: rest => [] :: splitCommaSpace rest
  | c :: rest =>
    match splitCommaSpace rest with
    | [] => [[c]]
    | t :: ts => (c :: t) :: ts

/-- `splitTagsField` reads a tags cell back into the tag list, as the spec's
round-trip property splits the written field on `", "`. -/
def splitTagsField (s : String) : List String :=
  (splitCommaSpace s.data).map (fun cs => String.mk cs)

/-! ### Concrete fixtures used to evaluate the theorems -/

/-- A well-formed quote entry (all selector hits present). -/
def entryA : QuoteEntry := ⟨some "q1", some "Alice", some "/author/Alice", ["love"]⟩

/-- A quote entry whose `.text` element is missing. -/
def badEntry : QuoteEntry := ⟨none, some "Bob", some "/author/Bob", []⟩

/-- The absolute author URL `entryA` resolves to. -/
def aliceUrl : String := "https://quotes.toscrape.com/author/Alice"

/-- The absolute URL of the second listing page. -/
def page2Url : String := "https://quotes.toscrape.com/page/2/"

/-- A one-page site whose only author always fails to fetch. -/
def oneBadAuthorSite : Site where
  fetchListing := fun u =>
    if u = BASE_URL then .ok ⟨[entryA], none⟩ else .error (.transport "404")
  fetchAuthor := fun _ => .error (.transport "down")

/-- A site whose second listing page fails to fetch. -/
def failPage2Site : Site where
  fetchListing := fun u =>
    if u = BASE_URL then .ok ⟨[], some "/page/2/"⟩ else .error (.transport "boom")
  fetchAuthor := fun _ => .error (.transport "x")

/-- An author page with the born-location element missing. -/
def pageNoLoc : AuthorPage := ⟨some "X", some "1900", none, some "D"⟩

/-- A site serving `pageNoLoc` for Alice's author page. -/
def authorPageSite : Site where
  fetchListing := fun _ => .error (.transport "x")
  fetchAuthor := fun u =>
    if u = aliceUrl then .ok pageNoLoc else .error (.transport "404")

/-- A two-page site serving the same quote entry on both pages. -/
def twoPageSite : Site where
  fetchListing := fun u =>
    if u = BASE_URL then .ok ⟨[entryA], some "/page/2/"⟩
    else if u = page2Url then .ok ⟨[entryA], none⟩
    else .error (.transport "404")
  fetchAuthor := fun _ => .error (.transport "down")

/-- Expected `RunSuccess` of `main twoPageSite 3`. -/
def twoPageRun : RunSuccess where
  all_quotes := [⟨"q1", "Alice", ["love"]⟩, ⟨"q1", "Alice", ["love"]⟩]
  authors_cache := [(aliceUrl, ⟨"", "", "", ""⟩)]
  quotesCsv := [["text", "author", "tags"],
    ["q1", "Alice", "love"], ["q1", "Alice", "love"]]
  authorsCsv := [["name", "birth_date", "birth_location", "description"],
    ["", "", "", ""]]

/-- Expected trace of `main twoPageSite 3`. -/
def twoPageEvs : List Event :=
  [.pageFetch BASE_URL, .authorFetch aliceUrl, .sleep, .pageFetch page2Url]

/-- Expected `RunSuccess` of `main oneBadAuthorSite 2`. -/
def oneBadAuthorRun : RunSuccess where
  all_quotes := [⟨"q1", "Alice", ["love"]⟩]
  authors_cache := [(aliceUrl, ⟨"", "", "", ""⟩)]
  quotesCsv := [["text", "author", "tags"], ["q1", "Alice", "love"]]
  authorsCsv := [["name", "birth_date", "birth_location", "description"],
    ["", "", "", ""]]

/-- Expected trace of `main oneBadAuthorSite 2`. -/
def oneBadAuthorEvs : List Event :=
  [.pageFetch BASE_URL, .authorFetch aliceUrl, .sleep]

/-- URL of the third listing page of the three-page chain. -/
def page3Url : String := "https://quotes.toscrape.com/page/3/"

/-- Pages of a three-page chain with absolute next links. -/
def chainPage1 : ListingPage := ⟨[], some page2Url⟩

/-- Second chain page. -/
def chainPage2 : ListingPage := ⟨[], some page3Url⟩

/-- Last chain page: no next control. -/
def chainPage3 : ListingPage := ⟨[], none⟩

/-- A site serving the three-page chain. -/
def chainSite : Site where
  fetchListing := fun u =>
    if u = BASE_URL then .ok chainPage1
    else if u = page2Url then .ok chainPage2
    else if u = page3Url then .ok chainPage3
    else .error (.transport "404")
  fetchAuthor := fun _ => .error (.transport "x")

/-- The chain description for `chainSite`. -/
def threeChain : List (String × ListingPage) :=
  [(BASE_URL, chainPage1), (page2Url, chainPage2), (page3Url, chainPage3)]

/-- A quote with no tags (its tags are vacuously comma-free). -/
def qNoTags : Quote := ⟨"T", "A", []⟩

/-- A quote with two comma-free tags. -/
def qTwoTags : Quote := ⟨"T", "A", ["a", "b"]⟩

/-! ### Association-list and trace-counting facts -/

theorem assocFind?_append_single {α : Type} (c : List (String × α)) (k : String)
    (v : α) (u : String) :
    assocFind? (c ++ [(k, v)]) u =
      match assocFind? c u with
      | some a => some a
      | none => if k = u then some v else none := by
  induction c with
  | nil => rfl
  | cons p rest ih =>
    obtain ⟨k', v'⟩ := p
    by_cases h : k' = u <;> simp [assocFind?, h, ih]

theorem assocFind?_append_of_some {α : Type} {c : List (String × α)} {u : String} {a : α}
    (k : String) (v : α) (h : assocFind? c u = some a) :
    assocFind? (c ++ [(k, v)]) u = some a := by
  rw [assocFind?_append_single, h]

theorem assocFind?_append_of_none {α : Type} {c : List (String × α)} {u : String}
    (k : String) (v : α) (h : assocFind? c u = none) :
    assocFind? (c ++ [(k, v)]) u = if k = u then some v else none := by
  rw [assocFind?_append_single, h]

theorem assocFind?_none_of_append {α : Type} {c : List (String × α)} {u k : String} {v : α}
    (h : assocFind? (c ++ [(k, v)]) u = none) : assocFind? c u = none := by
  rw [assocFind?_append_single] at h
  cases hc : assocFind? c u with
  | none => rfl
  | some a => rw [hc] at h; exact absurd h (by simp)

theorem assocFind?_mem {α : Type} {c : List (String × α)} {u : String} {a : α}
    (h : assocFind? c u = some a) : (u, a) ∈ c := by
  induction c with
  | nil => exact absurd h (by simp [assocFind?])
  | cons p rest ih =>
    obtain ⟨k, v⟩ := p
    by_cases hk : k = u
    · subst hk
      have hv : v = a := by simpa [assocFind?] using h
      subst hv; exact List.mem_cons_self _ _
    · simp only [assocFind?, if_neg hk] at h
      exact List.mem_cons_of_mem _ (ih h)

theorem countAF_append (u : String) (l1 l2 : List Event) :
    countAF u (l1 ++ l2) = countAF u l1 + countAF u l2 := by
  induction l1 with
  | nil => simp [countAF]
  | cons ev rest ih => cases ev <;> simp [countAF, ih, Nat.add_assoc]

theorem countAF_pos_of_mem {u : String} {evs : List Event}
    (h : Event.authorFetch u ∈ evs) : 1 ≤ countAF u evs := by
  induction evs with
  | nil => simp at h
  | cons ev rest ih =>
    rcases List.mem_cons.mp h with h1 | h2
    · subst h1; simp [countAF]
    · have hr := ih h2
      cases ev with
      | pageFetch v => simpa [countAF] using hr
      | sleep => simpa [countAF] using hr
      | authorFetch v => simp only [countAF]; split <;> omega

/-! ### The per-page author loop: cache invariants -/

theorem processPage_cons_cached {site : Site} {cache : Cache} {link : String}
    (rest : List String) (h : (assocFind? cache link).isSome) :
    processPage site (link :: rest) cache = processPage site rest cache := by
  simp [processPage, h]

theorem processPage_cons_new {site : Site} {cache : Cache} {link : String}
    (rest : List String) (h : assocFind? cache link = none) :
    processPage site (link :: rest) cache =
      ((processPage site rest (cache ++ [(link, resolve_author site link)])).1,
        .authorFetch link :: .sleep ::
          (processPage site rest (cache ++ [(link, resolve_author site link)])).2) := by
  simp [processPage, h]

theorem processPage_find_mono (site : Site) (u : String) (a : Author) :
    ∀ (links : List String) (cache : Cache), assocFind? cache u = some a →
      assocFind? (processPage site links cache).1 u = some a := by
  intro links
  induction links with
  | nil => intro cache h; simpa [processPage] using h
  | cons link rest ih =>
    intro cache h
    by_cases hc : (assocFind? cache link).isSome
    · rw [processPage_cons_cached rest hc]; exact ih cache h
    · rw [processPage_cons_new rest (Option.not_isSome_iff_eq_none.mp hc)]
      exact ih _ (assocFind?_append_of_some _ _ h)

theorem processPage_countAF_zero_of_cached (site : Site) (u : String) :
    ∀ (links : List String) (cache : Cache), (assocFind? cache u).isSome →
      countAF u (processPage site links cache).2 = 0 := by
  intro links
  induction links with
  | nil => intro cache _; simp [processPage, countAF]
  | cons link rest ih =>
    intro cache h
    by_cases hc : (assocFind? cache link).isSome
    · rw [processPage_cons_cached rest hc]; exact ih cache h
    · have hnone := Option.not_isSome_iff_eq_none.mp hc
      have hne : link ≠ u := by
        intro he; subst he; rw [hnone] at h; exact absurd h (by simp)
      rw [processPage_cons_new rest hnone]
      simp only [countAF, if_neg hne]
      obtain ⟨a, ha⟩ := Option.isSome_iff_exists.mp h
      have hz := ih _
        (by rw [assocFind?_append_of_some link (resolve_author site link) ha]; simp)
      omega

theorem processPage_countAF_le_one (site : Site) (u : String) :
    ∀ (links : List String) (cache : Cache),
      countAF u (processPage site links cache).2 ≤ 1 := by
  intro links
  induction links with
  | nil => intro cache; simp [processPage, countAF]
  | cons link rest ih =>
    intro cache
    by_cases hc : (assocFind? cache link).isSome
    · rw [processPage_cons_cached rest hc]; exact ih cache
    · have hnone := Option.not_isSome_iff_eq_none.mp hc
      rw [processPage_cons_new rest hnone]
      by_cases he : link = u
      · subst he
        have h0 := processPage_countAF_zero_of_cached site link rest
          (cache ++ [(link, resolve_author site link)])
          (by rw [assocFind?_append_of_none _ _ hnone]; simp)
        simp [countAF, h0]
      · simp only [countAF, if_neg he]
        have := ih (cache ++ [(link, resolve_author site link)])
        omega

theorem processPage_cached_of_countAF (site : Site) (u : String) :
    ∀ (links : List String) (cache : Cache),
      1 ≤ countAF u (processPage site links cache).2 →
      assocFind? (processPage site links cache).1 u = some (resolve_author site u) ∧
        assocFind? cache u = none := by
  intro links
  induction links with
  | nil => intro cache h; simp [processPage, countAF] at h
  | cons link rest ih =>
    intro cache h
    by_cases hc : (assocFind? cache link).isSome
    · rw [processPage_cons_cached rest hc] at h ⊢; exact ih cache h
    · have hnone := Option.not_isSome_iff_eq_none.mp hc
      rw [processPage_cons_new rest hnone] at h ⊢
      by_cases he : link = u
      · subst he
        refine ⟨?_, hnone⟩
        exact processPage_find_mono site link _ rest _
          (by rw [assocFind?_append_of_none _ _ hnone]; simp)
      · simp only [countAF, if_neg he] at h
        obtain ⟨h1, h2⟩ := ih (cache ++ [(link, resolve_author site link)]) (by omega)
        exact ⟨h1, assocFind?_none_of_append h2⟩

theorem processPage_no_pageFetch (site : Site) (u : String) :
    ∀ (links : List String) (cache : Cache),
      Event.pageFetch u ∉ (processPage site links cache).2 := by
  intro links
  induction links with
  | nil => intro cache; simp [processPage]
  | cons link rest ih =>
    intro cache
    by_cases hc : (assocFind? cache link).isSome
    · rw [processPage_cons_cached rest hc]; exact ih cache
    · rw [processPage_cons_new rest (Option.not_isSome_iff_eq_none.mp hc)]
      simp only [List.mem_cons]
      push_neg
      exact ⟨by simp, by simp, ih _⟩

theorem processPage_visitedUrls (site : Site) :
    ∀ (links : List String) (cache : Cache),
      visitedUrls (processPage site links cache).2 = [] := by
  intro links
  induction links with
  | nil => intro cache; simp [processPage, visitedUrls]
  | cons link rest ih =>
    intro cache
    by_cases hc : (assocFind? cache link).isSome
    · rw [processPage_cons_cached rest hc]; exact ih cache
    · rw [processPage_cons_new rest (Option.not_isSome_iff_eq_none.mp hc)]
      simpa [visitedUrls] using ih (cache ++ [(link, resolve_author site link)])

/-! ### The crawl loop: unfolding equations -/

theorem crawl_none (site : Site) (fuel : Nat) (qs : List Quote) (cache : Cache) :
    crawl site fuel none qs cache = (.done qs cache, []) := by
  cases fuel <;> rfl

theorem crawl_some_empty (site : Site) (fuel : Nat) (qs : List Quote) (cache : Cache) :
    crawl site fuel (some "") qs cache = (.done qs cache, []) := by
  cases fuel <;> simp [crawl]

theorem crawl_zero {url : String} (site : Site) (qs : List Quote) (cache : Cache)
    (h : url ≠ "") : crawl site 0 (some url) qs cache = (.outOfFuel, []) := by
  simp [crawl, h]

theorem crawl_succ_error {site : Site} {url : String} {e : CrawlError} (f : Nat)
    (qs : List Quote) (cache : Cache) (h : url ≠ "")
    (he : get_quotes_from_page site url = .error e) :
    crawl site (f + 1) (some url) qs cache = (.aborted e, [.pageFetch url]) := by
  simp [crawl, h, he]

theorem crawl_succ_ok {site : Site} {url : String} {pageQs : List Quote}
    {next_url : Option String} {links : List String} (f : Nat) (qs : List Quote)
    (cache : Cache) (h : url ≠ "")
    (hok : get_quotes_from_page site url = .ok (pageQs, next_url, links)) :
    crawl site (f + 1) (some url) qs cache =
      ((crawl site f next_url (qs ++ pageQs)
          (processPage site (dedupFirst links) cache).1).1,
        .pageFetch url ::
          ((processPage site (dedupFirst links) cache).2 ++
            (crawl site f next_url (qs ++ pageQs)
              (processPage site (dedupFirst links) cache).1).2)) := by
  simp [crawl, h, hok]

theorem get_quotes_error_of_fetch_error {site : Site} {url : String} {e : CrawlError}
    (h : site.fetchListing url = .error e) :
    get_quotes_from_page site url = .error e := by
  unfold get_quotes_from_page
  rw [h]

theorem pageQuotes_of_ok {site : Site} {url : String} {pageQs : List Quote}
    {next_url : Option String} {links : List String}
    (hok : get_quotes_from_page site url = .ok (pageQs, next_url, links)) :
    pageQuotes site url = pageQs := by
  unfold get_quotes_from_page at hok
  unfold pageQuotes
  cases hfetch : site.fetchListing url with
  | error e => rw [hfetch] at hok; exact absurd hok (by simp)
  | ok soup =>
    rw [hfetch] at hok
    simp only [Except.ok.injEq, Prod.mk.injEq] at hok
    exact hok.1

/-! ### The crawl loop: cache and trace invariants -/

theorem crawl_find_mono (site : Site) (u : String) (a : Author) :
    ∀ (fuel : Nat) (url? : Option String) (qs qs' : List Quote) (cache c' : Cache)
      (evs : List Event),
      crawl site fuel url? qs cache = (.done qs' c', evs) →
      assocFind? cache u = some a → assocFind? c' u = some a := by
  intro fuel
  induction fuel with
  | zero =>
    intro url? qs qs' cache c' evs hcr hfind
    match url? with
    | none =>
      rw [crawl_none] at hcr
      injection hcr with h1 h2
      injection h1 with hq hc
      subst hc; exact hfind
    | some url =>
      by_cases hu : url = ""
      · subst hu
        rw [crawl_some_empty] at hcr
        injection hcr with h1 h2
        injection h1 with hq hc
        subst hc; exact hfind
      · rw [crawl_zero site qs cache hu] at hcr
        injection hcr with h1 h2
        exact absurd h1 (by simp)
  | succ f ih =>
    intro url? qs qs' cache c' evs hcr hfind
    match url? with
    | none =>
      rw [crawl_none] at hcr
      injection hcr with h1 h2
      injection h1 with hq hc
      subst hc; exact hfind
    | some url =>
      by_cases hu : url = ""
      · subst hu
        rw [crawl_some_empty] at hcr
        injection hcr with h1 h2
        injection h1 with hq hc
        subst hc; exact hfind
      · cases hq : get_quotes_from_page site url with
        | error e =>
          rw [crawl_succ_error f qs cache hu hq] at hcr
          injection hcr with h1 h2
          exact absurd h1 (by simp)
        | ok res =>
          obtain ⟨pageQs, next_url, links⟩ := res
          rw [crawl_succ_ok f qs cache hu hq] at hcr
          injection hcr with h1 h2
          exact ih next_url (qs ++ pageQs) qs'
            (processPage site (dedupFirst links) cache).1 c' _
            (by rw [← h1])
            (processPage_find_mono site u a (dedupFirst links) cache hfind)

theorem crawl_countAF_zero_of_cached (site : Site) (u : String) :
    ∀ (fuel : Nat) (url? : Option String) (qs : List Quote) (cache : Cache),
      (assocFind? cache u).isSome →
      countAF u (crawl site fuel url? qs cache).2 = 0 := by
  intro fuel
  induction fuel with
  | zero =>
    intro url? qs cache _
    match url? with
    | none => rw [crawl_none]; rfl
    | some url =>
      by_cases hu : url = ""
      · subst hu; rw [crawl_some_empty]; rfl
      · rw [crawl_zero site qs cache hu]; rfl
  | succ f ih =>
    intro url? qs cache hfind
    match url? with
    | none => rw [crawl_none]; rfl
    | some url =>
      by_cases hu : url = ""
      · subst hu; rw [crawl_some_empty]; rfl
      · cases hq : get_quotes_from_page site url with
        | error e => rw [crawl_succ_error f qs cache hu hq]; rfl
        | ok res =>
          obtain ⟨pageQs, next_url, links⟩ := res
          rw [crawl_succ_ok f qs cache hu hq]
          simp only [countAF, countAF_append]
          obtain ⟨a, ha⟩ := Option.isSome_iff_exists.mp hfind
          rw [processPage_countAF_zero_of_cached site u (dedupFirst links) cache hfind,
            ih next_url (qs ++ pageQs) (processPage site (dedupFirst links) cache).1
              (by rw [processPage_find_mono site u a (dedupFirst links) cache ha]; simp)]

theorem crawl_countAF_le_one (site : Site) (u : String) :
    ∀ (fuel : Nat) (url? : Option String) (qs : List Quote) (cache : Cache),
      countAF u (crawl site fuel url? qs cache).2 ≤ 1 := by
  intro fuel
  induction fuel with
  | zero =>
    intro url? qs cache
    match url? with
    | none => rw [crawl_none]; simp [countAF]
    | some url =>
      by_cases hu : url = ""
      · subst hu; rw [crawl_some_empty]; simp [countAF]
      · rw [crawl_zero site qs cache hu]; simp [countAF]
  | succ f ih =>
    intro url? qs cache
    match url? with
    | none => rw [crawl_none]; simp [countAF]
    | some url =>
      by_cases hu : url = ""
      · subst hu; rw [crawl_some_empty]; simp [countAF]
      · cases hq : get_quotes_from_page site url with
        | error e => rw [crawl_succ_error f qs cache hu hq]; simp [countAF]
        | ok res =>
          obtain ⟨pageQs, next_url, links⟩ := res
          rw [crawl_succ_ok f qs cache hu hq]
          simp only [countAF, countAF_append]
          by_cases hP : 1 ≤ countAF u (processPage site (dedupFirst links) cache).2
          · have h1 := processPage_countAF_le_one site u (dedupFirst links) cache
            have h2 := (processPage_cached_of_countAF site u (dedupFirst links) cache hP).1
            have h3 := crawl_countAF_zero_of_cached site u f next_url (qs ++ pageQs)
              (processPage site (dedupFirst links) cache).1 (by rw [h2]; simp)
            omega
          · have h4 := ih next_url (qs ++ pageQs) (processPage site (dedupFirst links) cache).1
            omega

theorem crawl_cached_of_AF (site : Site) (u : String) :
    ∀ (fuel : Nat) (url? : Option String) (qs qs' : List Quote) (cache c' : Cache)
      (evs : List Event),
      crawl site fuel url? qs cache = (.done qs' c', evs) →
      1 ≤ countAF u evs →
      assocFind? c' u = some (resolve_author site u) := by
  intro fuel
  induction fuel with
  | zero =>
    intro url? qs qs' cache c' evs hcr hAF
    match url? with
    | none =>
      rw [crawl_none] at hcr
      injection hcr with h1 h2
      rw [← h2] at hAF
      simp [countAF] at hAF
    | some url =>
      by_cases hu : url = ""
      · subst hu
        rw [crawl_some_empty] at hcr
        injection hcr with h1 h2
        rw [← h2] at hAF
        simp [countAF] at hAF
      · rw [crawl_zero site qs cache hu] at hcr
        injection hcr with h1 h2
        exact absurd h1 (by simp)
  | succ f ih =>
    intro url? qs qs' cache c' evs hcr hAF
    match url? with
    | none =>
      rw [crawl_none] at hcr
      injection hcr with h1 h2
      rw [← h2] at hAF
      simp [countAF] at hAF
    | some url =>
      by_cases hu : url = ""
      · subst hu
        rw [crawl_some_empty] at hcr
        injection hcr with h1 h2
        rw [← h2] at hAF
        simp [countAF] at hAF
      · cases hq : get_quotes_from_page site url with
        | error e =>
          rw [crawl_succ_error f qs cache hu hq] at hcr
          injection hcr with h1 h2
          exact absurd h1 (by simp)
        | ok res =>
          obtain ⟨pageQs, next_url, links⟩ := res
          rw [crawl_succ_ok f qs cache hu hq] at hcr
          injection hcr with h1 h2
          rw [← h2] at hAF
          simp only [countAF, countAF_append] at hAF
          by_cases hP : 1 ≤ countAF u (processPage site (dedupFirst links) cache).2
          · have h2c := (processPage_cached_of_countAF site u (dedupFirst links) cache hP).1
            exact crawl_find_mono site u (resolve_author site u) f next_url
              (qs ++ pageQs) qs' (processPage site (dedupFirst links) cache).1 c' _
              (by rw [← h1]) h2c
          · have hR : 1 ≤ countAF u (crawl site f next_url (qs ++ pageQs)
                (processPage site (dedupFirst links) cache).1).2 := by omega
            exact ih next_url (qs ++ pageQs) qs'
              (processPage site (dedupFirst links) cache).1 c' _
              (by rw [← h1]) hR

theorem crawl_abort_of_listing_error (site : Site) (u : String) (e : CrawlError)
    (hfe : site.fetchListing u = .error e) :
    ∀ (fuel : Nat) (url? : Option String) (qs : List Quote) (cache : Cache),
      Event.pageFetch u ∈ (crawl site fuel url? qs cache).2 →
      (crawl site fuel url? qs cache).1 = .aborted e := by
  intro fuel
  induction fuel with
  | zero =>
    intro url? qs cache hmem
    match url? with
    | none => rw [crawl_none] at hmem ⊢; simp at hmem
    | some url =>
      by_cases hu : url = ""
      · subst hu; rw [crawl_some_empty] at hmem ⊢; simp at hmem
      · rw [crawl_zero site qs cache hu] at hmem ⊢; simp at hmem
  | succ f ih =>
    intro url? qs cache hmem
    match url? with
    | none => rw [crawl_none] at hmem ⊢; simp at hmem
    | some url =>
      by_cases hu : url = ""
      · subst hu; rw [crawl_some_empty] at hmem ⊢; simp at hmem
      · cases hq : get_quotes_from_page site url with
        | error e' =>
          rw [crawl_succ_error f qs cache hu hq] at hmem ⊢
          simp only [List.mem_singleton, Event.pageFetch.injEq] at hmem
          subst hmem
          rw [get_quotes_error_of_fetch_error hfe] at hq
          injection hq with he'
          rw [he']
        | ok res =>
          obtain ⟨pageQs, next_url, links⟩ := res
          rw [crawl_succ_ok f qs cache hu hq] at hmem ⊢
          simp only [List.mem_cons, List.mem_append] at hmem
          rcases hmem with h1 | h2 | h3
          · injection h1 with hequ
            subst hequ
            rw [get_quotes_error_of_fetch_error hfe] at hq
            exact absurd hq (by simp)
          · exact absurd h2 (processPage_no_pageFetch site u (dedupFirst links) cache)
          · exact ih next_url (qs ++ pageQs)
              (processPage site (dedupFirst links) cache).1 h3

/-! ### Quote accumulation -/

theorem visitedUrls_append (l1 l2 : List Event) :
    visitedUrls (l1 ++ l2) = visitedUrls l1 ++ visitedUrls l2 := by
  simp [visitedUrls]

theorem visitedUrls_pageFetch_cons (u : String) (l : List Event) :
    visitedUrls (.pageFetch u :: l) = u :: visitedUrls l := by
  simp [visitedUrls]

theorem crawl_done_quotes (site : Site) :
    ∀ (fuel : Nat) (url? : Option String) (qs qs' : List Quote) (cache c' : Cache)
      (evs : List Event),
      crawl site fuel url? qs cache = (.done qs' c', evs) →
      qs' = qs ++ ((visitedUrls evs).map (pageQuotes site)).flatten := by
  intro fuel
  induction fuel with
  | zero =>
    intro url? qs qs' cache c' evs hcr
    match url? with
    | none =>
      rw [crawl_none] at hcr
      injection hcr with h1 h2
      injection h1 with hq hc
      subst hq; rw [← h2]; simp [visitedUrls]
    | some url =>
      by_cases hu : url = ""
      · subst hu
        rw [crawl_some_empty] at hcr
        injection hcr with h1 h2
        injection h1 with hq hc
        subst hq; rw [← h2]; simp [visitedUrls]
      · rw [crawl_zero site qs cache hu] at hcr
        injection hcr with h1 h2
        exact absurd h1 (by simp)
  | succ f ih =>
    intro url? qs qs' cache c' evs hcr
    match url? with
    | none =>
      rw [crawl_none] at hcr
      injection hcr with h1 h2
      injection h1 with hq hc
      subst hq; rw [← h2]; simp [visitedUrls]
    | some url =>
      by_cases hu : url = ""
      · subst hu
        rw [crawl_some_empty] at hcr
        injection hcr with h1 h2
        injection h1 with hq hc
        subst hq; rw [← h2]; simp [visitedUrls]
      · cases hq : get_quotes_from_page site url with
        | error e =>
          rw [crawl_succ_error f qs cache hu hq] at hcr
          injection hcr with h1 h2
          exact absurd h1 (by simp)
        | ok res =>
          obtain ⟨pageQs, next_url, links⟩ := res
          rw [crawl_succ_ok f qs cache hu hq] at hcr
          injection hcr with h1 h2
          have hrec := ih next_url (qs ++ pageQs) qs'
            (processPage site (dedupFirst links) cache).1 c' _ (by rw [← h1])
          rw [← h2, visitedUrls_pageFetch_cons, visitedUrls_append,
            processPage_visitedUrls site (dedupFirst links) cache]
          simp only [List.nil_append, List.map_cons, List.flatten_cons]
          rw [hrec, pageQuotes_of_ok hq]
          simp [List.append_assoc]

/-! ### Pacing: every author fetch is immediately followed by a sleep -/

theorem sleepPaced_nil : SleepPaced [] := by
  intro pre u post h
  exact absurd h (by simp)

theorem sleepPaced_cons_of {l : List Event} (ev : Event)
    (hev : ∀ u, ev ≠ .authorFetch u) (h : SleepPaced l) : SleepPaced (ev :: l) := by
  intro pre u post hp
  cases pre with
  | nil =>
    simp only [List.nil_append, List.cons.injEq] at hp
    exact absurd hp.1 (hev u)
  | cons b pre' =>
    simp only [List.cons_append, List.cons.injEq] at hp
    exact h pre' u post hp.2

theorem sleepPaced_of_cons {l : List Event} {ev : Event} (h : SleepPaced (ev :: l)) :
    SleepPaced l := by
  intro pre u post hp
  exact h (ev :: pre) u post (by simp [hp])

theorem sleepPaced_af_sleep {l : List Event} (v : String) (h : SleepPaced l) :
    SleepPaced (.authorFetch v :: .sleep :: l) := by
  intro pre u post hp
  cases pre with
  | nil =>
    simp only [List.nil_append, List.cons.injEq] at hp
    exact ⟨l, hp.2.symm⟩
  | cons b pre' =>
    simp only [List.cons_append, List.cons.injEq] at hp
    exact (sleepPaced_cons_of .sleep (by simp) h) pre' u post hp.2

theorem sleepPaced_append_aux {l2 : List Event} (h2 : SleepPaced l2) :
    ∀ (n : Nat) (l1 : List Event), l1.length ≤ n → SleepPaced l1 →
      SleepPaced (l1 ++ l2) := by
  intro n
  induction n with
  | zero =>
    intro l1 hlen h1
    match l1 with
    | [] => simpa using h2
    | _ :: _ => simp at hlen
  | succ k ih =>
    intro l1 hlen h1
    match l1 with
    | [] => simpa using h2
    | ev :: rest =>
      have hlen' : rest.length ≤ k := by simp at hlen; omega
      cases ev with
      | pageFetch v =>
        exact sleepPaced_cons_of _ (by simp) (ih rest hlen' (sleepPaced_of_cons h1))
      | sleep =>
        exact sleepPaced_cons_of _ (by simp) (ih rest hlen' (sleepPaced_of_cons h1))
      | authorFetch v =>
        obtain ⟨rest', hr⟩ := h1 [] v rest rfl
        subst hr
        have hrest' : SleepPaced rest' := sleepPaced_of_cons (sleepPaced_of_cons h1)
        have hlen2 : rest'.length ≤ k := by simp at hlen; omega
        simpa using sleepPaced_af_sleep v (ih rest' hlen2 hrest')

theorem sleepPaced_append {l1 l2 : List Event} (h1 : SleepPaced l1)
    (h2 : SleepPaced l2) : SleepPaced (l1 ++ l2) :=
  sleepPaced_append_aux h2 l1.length l1 le_rfl h1

theorem processPage_sleepPaced (site : Site) :
    ∀ (links : List String) (cache : Cache),
      SleepPaced (processPage site links cache).2 := by
  intro links
  induction links with
  | nil => intro cache; simpa [processPage] using sleepPaced_nil
  | cons link rest ih =>
    intro cache
    by_cases hc : (assocFind? cache link).isSome
    · rw [processPage_cons_cached rest hc]; exact ih cache
    · rw [processPage_cons_new rest (Option.not_isSome_iff_eq_none.mp hc)]
      exact sleepPaced_af_sleep link (ih _)

theorem crawl_sleepPaced (site : Site) :
    ∀ (fuel : Nat) (url? : Option String) (qs : List Quote) (cache : Cache),
      SleepPaced (crawl site fuel url? qs cache).2 := by
  intro fuel
  induction fuel with
  | zero =>
    intro url? qs cache
    match url? with
    | none => rw [crawl_none]; exact sleepPaced_nil
    | some url =>
      by_cases hu : url = ""
      · subst hu; rw [crawl_some_empty]; exact sleepPaced_nil
      · rw [crawl_zero site qs cache hu]; exact sleepPaced_nil
  | succ f ih =>
    intro url? qs cache
    match url? with
    | none => rw [crawl_none]; exact sleepPaced_nil
    | some url =>
      by_cases hu : url = ""
      · subst hu; rw [crawl_some_empty]; exact sleepPaced_nil
      · cases hq : get_quotes_from_page site url with
        | error e =>
          rw [crawl_succ_error f qs cache hu hq]
          exact sleepPaced_cons_of _ (by simp) sleepPaced_nil
        | ok res =>
          obtain ⟨pageQs, next_url, links⟩ := res
          rw [crawl_succ_ok f qs cache hu hq]
          exact sleepPaced_cons_of _ (by simp)
            (sleepPaced_append (processPage_sleepPaced site (dedupFirst links) cache)
              (ih next_url (qs ++ pageQs) (processPage site (dedupFirst links) cache).1))

/-! ### Pagination over a finite acyclic page chain -/

theorem crawl_follows_chain (site : Site) :
    ∀ (chain : List (String × ListingPage)) (fuel : Nat) (qs : List Quote)
      (cache : Cache),
      isChain site chain → chain.length ≤ fuel →
      ∃ qs' c', (crawl site fuel (headUrl? chain) qs cache).1 = .done qs' c' ∧
        visitedUrls (crawl site fuel (headUrl? chain) qs cache).2 =
          chain.map Prod.fst := by
  intro chain
  induction chain with
  | nil =>
    intro fuel qs cache _ _
    exact ⟨qs, cache, by simp only [headUrl?]; rw [crawl_none],
      by simp only [headUrl?]; rw [crawl_none]; simp [visitedUrls]⟩
  | cons hd rest ih =>
    obtain ⟨u, p⟩ := hd
    intro fuel qs cache hch hlen
    obtain ⟨hu, -, hfetch, hnextHref, hrest⟩ := hch
    match fuel with
    | 0 => simp at hlen
    | f + 1 =>
      have hflen : rest.length ≤ f := by simp at hlen; omega
      have hnext : p.nextHref?.map (urljoin BASE_URL) = headUrl? rest := by
        match rest, hnextHref, hrest with
        | [], hn, _ => rw [hn]; rfl
        | (u2, p2) :: rest', hn, hr => rw [hn]; simpa [headUrl?] using hr.2.1
      have hok : get_quotes_from_page site u =
          .ok ((scanEntries p.entries).1, headUrl? rest, (scanEntries p.entries).2) := by
        unfold get_quotes_from_page
        rw [hfetch, ← hnext]
      obtain ⟨qs', c', hdone, hvis⟩ := ih f (qs ++ (scanEntries p.entries).1)
        (processPage site (dedupFirst (scanEntries p.entries).2) cache).1 hrest hflen
      refine ⟨qs', c', ?_, ?_⟩
      · simp only [headUrl?]
        rw [crawl_succ_ok f qs cache hu hok]
        exact hdone
      · simp only [headUrl?]
        rw [crawl_succ_ok f qs cache hu hok]
        rw [visitedUrls_pageFetch_cons, visitedUrls_append,
          processPage_visitedUrls site (dedupFirst (scanEntries p.entries).2) cache,
          List.nil_append, hvis]
        rfl

/-! ### The tags cell: joining with ", " and splitting back -/

theorem splitCS_sep (rest : List Char) :
    splitCommaSpace (',' :: ' ' :: rest) = [] :: splitCommaSpace rest := rfl

theorem splitCS_cons {c : Char} (rest : List Char) (hc : c ≠ ',') :
    splitCommaSpace (c :: rest) =
      match splitCommaSpace rest with
      | [] => [[c]]
      | t :: ts => (c :: t) :: ts := by
  match rest with
  | [] => simp [splitCommaSpace, hc]
  | r :: rest' =>
    by_cases hr : c = ',' ∧ r = ' '
    · exact absurd hr.1 hc
    · simp [splitCommaSpace, hc]

theorem splitCS_no_comma : ∀ (t : List Char), ',' ∉ t → splitCommaSpace t = [t] := by
  intro t
  induction t with
  | nil => intro _; rfl
  | cons c t' ih =>
    intro h
    have hc : c ≠ ',' := fun he => h (he ▸ List.mem_cons_self c t')
    rw [splitCS_cons t' hc, ih (fun hm => h (List.mem_cons_of_mem c hm))]

theorem splitCS_sep_append :
    ∀ (t rest : List Char), ',' ∉ t →
      splitCommaSpace (t ++ ',' :: ' ' :: rest) = t :: splitCommaSpace rest := by
  intro t
  induction t with
  | nil => intro rest _; exact splitCS_sep rest
  | cons c t' ih =>
    intro rest h
    have hc : c ≠ ',' := fun he => h (he ▸ List.mem_cons_self c t')
    rw [List.cons_append, splitCS_cons _ hc,
      ih rest (fun hm => h (List.mem_cons_of_mem c hm))]

theorem splitCS_flatten :
    ∀ (ts : List (List Char)) (t : List Char), ',' ∉ t → (∀ x ∈ ts, ',' ∉ x) →
      splitCommaSpace (t ++ (ts.map (fun a => ',' :: ' ' :: a)).flatten) = t :: ts := by
  intro ts
  induction ts with
  | nil => intro t ht _; simpa using splitCS_no_comma t ht
  | cons a ts ih =>
    intro t ht hall
    have heq : t ++ ((a :: ts).map (fun x => ',' :: ' ' :: x)).flatten =
        t ++ ',' :: ' ' :: (a ++ (ts.map (fun x => ',' :: ' ' :: x)).flatten) := by
      simp
    rw [heq, splitCS_sep_append t _ ht,
      ih a (hall a (List.mem_cons_self a ts))
        (fun x hx => hall x (List.mem_cons_of_mem a hx))]

theorem intercalate_go_data :
    ∀ (as : List String) (acc s : String),
      (String.intercalate.go acc s as).data =
        acc.data ++ (as.map (fun a => s.data ++ a.data)).flatten := by
  intro as
  induction as with
  | nil => intro acc s; simp [String.intercalate.go]
  | cons a as ih =>
    intro acc s
    rw [String.intercalate.go, ih]
    simp [List.append_assoc]

theorem joinTags_data (t : String) (ts : List String) :
    (joinTags (t :: ts)).data =
      t.data ++ (ts.map (fun a => ',' :: ' ' :: a.data)).flatten := by
  unfold joinTags String.intercalate
  rw [intercalate_go_data]
  rfl

/-! ### Relating `main` to the crawl loop -/

theorem main_trace (site : Site) (fuel : Nat) :
    (main site fuel).2 = (crawl site fuel (some BASE_URL) [] []).2 := by
  unfold main
  generalize crawl site fuel (some BASE_URL) [] [] = r
  obtain ⟨res, evs⟩ := r
  cases res <;> rfl

theorem main_eq_aborted {site : Site} {fuel : Nat} {e : CrawlError}
    (h : (crawl site fuel (some BASE_URL) [] []).1 = .aborted e) :
    main site fuel = (.aborted e, (crawl site fuel (some BASE_URL) [] []).2) := by
  have hpair : crawl site fuel (some BASE_URL) [] [] =
      (.aborted e, (crawl site fuel (some BASE_URL) [] []).2) := by
    rw [← h]
  unfold main
  rw [hpair]

theorem main_eq_outOfFuel {site : Site} {fuel : Nat}
    (h : (crawl site fuel (some BASE_URL) [] []).1 = .outOfFuel) :
    main site fuel = (.outOfFuel, (crawl site fuel (some BASE_URL) [] []).2) := by
  have hpair : crawl site fuel (some BASE_URL) [] [] =
      (.outOfFuel, (crawl site fuel (some BASE_URL) [] []).2) := by
    rw [← h]
  unfold main
  rw [hpair]

theorem main_eq_finished {site : Site} {fuel : Nat} {qs : List Quote} {cache : Cache}
    (h : (crawl site fuel (some BASE_URL) [] []).1 = .done qs cache) :
    main site fuel =
      (.finished
        { all_quotes := qs
          authors_cache := cache
          quotesCsv := ["text", "author", "tags"] :: qs.map csvQuoteRow
          authorsCsv := ["name", "birth_date", "birth_location", "description"] ::
            cache.map (fun p => csvAuthorRow p.2) },
        (crawl site fuel (some BASE_URL) [] []).2) := by
  have hpair : crawl site fuel (some BASE_URL) [] [] =
      (.done qs cache, (crawl site fuel (some BASE_URL) [] []).2) := by
    rw [← h]
  unfold main
  rw [hpair]

theorem main_finished_inv {site : Site} {fuel : Nat} {r : RunSuccess} {evs : List Event}
    (h : main site fuel = (.finished r, evs)) :
    crawl site fuel (some BASE_URL) [] [] =
        (.done r.all_quotes r.authors_cache, evs) ∧
      r.quotesCsv = ["text", "author", "tags"] :: r.all_quotes.map csvQuoteRow ∧
      r.authorsCsv = ["name", "birth_date", "birth_location", "description"] ::
        r.authors_cache.map (fun p => csvAuthorRow p.2) := by
  cases hcr : (crawl site fuel (some BASE_URL) [] []).1 with
  | done qs cache =>
    rw [main_eq_finished hcr] at h
    injection h with h1 h2
    injection h1 with h3
    subst h3
    refine ⟨?_, rfl, rfl⟩
    have hpair : crawl site fuel (some BASE_URL) [] [] =
        ((crawl site fuel (some BASE_URL) [] []).1,
          (crawl site fuel (some BASE_URL) [] []).2) := rfl
    rw [hpair, hcr, h2]
  | aborted e =>
    rw [main_eq_aborted hcr] at h
    injection h with h1 h2
    exact absurd h1 (by simp)
  | outOfFuel =>
    rw [main_eq_outOfFuel hcr] at h
    injection h with h1 h2
    exact absurd h1 (by simp)

/-! ### The claims -/

/-- Claim C1: for every run and every distinct author-profile URL, the author
fetch operation is invoked at most once for that URL during the run; later
references to the same URL reuse the cached value instead of fetching. -/
theorem C1_author_fetched_at_most_once (site : Site) (fuel : Nat) (u : String) :
    countAF u (main site fuel).2 ≤ 1 := by
  rw [main_trace]
  exact crawl_countAF_le_one site u fuel (some BASE_URL) [] []

/-- Claim C2: a transport error while fetching a listing page propagates
uncaught out of the crawl loop and aborts the whole run: the outcome is
`aborted`, which carries no CSV data — both CSV files are built only in the
`finished` outcome, after pagination reached its terminal state. -/
theorem C2_listing_fetch_error_aborts_run (site : Site) (fuel : Nat) (u : String)
    (e : CrawlError) (hvisit : Event.pageFetch u ∈ (main site fuel).2)
    (hfail : site.fetchListing u = .error e) :
    (main site fuel).1 = .aborted e := by
  have hmem : Event.pageFetch u ∈ (crawl site fuel (some BASE_URL) [] []).2 := by
    rw [← main_trace]; exact hvisit
  rw [main_eq_aborted
    (crawl_abort_of_listing_error site u e hfail fuel (some BASE_URL) [] [] hmem)]

/-- Witness for C2: the site failing on page 2 aborts with that error. -/
theorem C2_witness :
    Event.pageFetch page2Url ∈ (main failPage2Site 5).2 ∧
      failPage2Site.fetchListing page2Url = .error (.transport "boom") ∧
      (main failPage2Site 5).1 = .aborted (.transport "boom") :=
  ⟨by decide, by decide,
    C2_listing_fetch_error_aborts_run failPage2Site 5 page2Url
      (.transport "boom") (by decide) (by decide)⟩

/-- Claim C3 counterexample: on transport failure `get_author_info` does NOT
return an all-empty Author — it propagates the error to its caller. -/
theorem C3_counterexample :
    get_author_info oneBadAuthorSite aliceUrl = .error (.transport "down") ∧
      get_author_info oneBadAuthorSite aliceUrl ≠
        .ok ⟨"", "", "", ""⟩ :=
  ⟨rfl, by decide⟩

/-- Claim C3 (amended): on transport failure `get_author_info` propagates the
error to its caller `main`, whose try/except around the call absorbs it into
an Author with all four fields empty (with a logged warning), so one failing
author never aborts the crawl. -/
theorem C3_author_failure_absorbed_by_caller (site : Site) (url : String)
    (e : CrawlError) (h : site.fetchAuthor url = .error e) :
    get_author_info site url = .error e ∧
      resolve_author site url = ⟨"", "", "", ""⟩ := by
  have hg : get_author_info site url = .error e := by
    unfold get_author_info; rw [h]
  exact ⟨hg, by unfold resolve_author; rw [hg]⟩

/-- Witness for C3 (amended) at a concrete failing author fetch. -/
theorem C3_witness :
    oneBadAuthorSite.fetchAuthor aliceUrl = .error (.transport "down") ∧
      (get_author_info oneBadAuthorSite aliceUrl = .error (.transport "down") ∧
        resolve_author oneBadAuthorSite aliceUrl = ⟨"", "", "", ""⟩) :=
  ⟨by decide,
    C3_author_failure_absorbed_by_caller oneBadAuthorSite aliceUrl
      (.transport "down") (by decide)⟩

/-- Claim C4: on a successfully fetched author page each of the four fields is
extracted independently: a missing element defaults that field alone to the
empty string, the other fields are still populated, and the extraction always
returns `.ok` (no exception surfaces). -/
theorem C4_author_fields_extracted_independently (site : Site) (url : String)
    (page : AuthorPage) (h : site.fetchAuthor url = .ok page) :
    get_author_info site url =
      .ok ⟨page.authorTitle?.getD "", page.bornDate?.getD "",
        page.bornLocation?.getD "", page.descriptionText?.getD ""⟩ := by
  unfold get_author_info
  rw [h]
  have hs : ∀ o : Option String, safe_get o = o.getD "" := fun o => by cases o <;> rfl
  simp [hs]

/-- Witness for C4: an author page missing only `birth_location`. -/
theorem C4_witness :
    authorPageSite.fetchAuthor aliceUrl = .ok pageNoLoc ∧
      get_author_info authorPageSite aliceUrl = .ok ⟨"X", "1900", "", "D"⟩ :=
  ⟨by decide,
    C4_author_fields_extracted_independently authorPageSite aliceUrl pageNoLoc
      (by decide)⟩

/-- Claim C5: a quote entry missing its text, author-name, or author-link is
skipped silently — it contributes no Quote and no author link, no error is
raised, and the remaining entries of the page are still extracted. -/
theorem C5_malformed_entries_skipped_silently (es1 es2 : List QuoteEntry)
    (e : QuoteEntry)
    (h : e.text? = none ∨ e.author? = none ∨ e.authorHref? = none) :
    scanEntries (es1 ++ e :: es2) = scanEntries (es1 ++ es2) := by
  induction es1 with
  | nil =>
    simp only [List.nil_append]
    obtain ⟨t?, a?, h?, tags⟩ := e
    cases t? <;> cases a? <;> cases h? <;> simp_all [scanEntries]
  | cons e1 rest1 ih =>
    simp only [List.cons_append, scanEntries, List.append_eq, ih]

/-- Witness for C5: an entry with a missing text element between two good
entries contributes nothing. -/
theorem C5_witness :
    (badEntry.text? = none ∨ badEntry.author? = none ∨
        badEntry.authorHref? = none) ∧
      scanEntries ([entryA] ++ badEntry :: [entryA]) =
        scanEntries ([entryA] ++ [entryA]) :=
  ⟨Or.inl rfl,
    C5_malformed_entries_skipped_silently [entryA] [entryA] badEntry (Or.inl rfl)⟩

/-- Claim C6: the accumulated quote sequence is exactly the per-page
extractions concatenated in page-visit order — no reordering and no dedup of
structurally equal quotes — and the quotes CSV holds one row per retained
quote in that order. -/
theorem C6_quotes_accumulate_in_visit_order (site : Site) (fuel : Nat)
    (r : RunSuccess) (evs : List Event)
    (hmain : main site fuel = (.finished r, evs)) :
    r.all_quotes = ((visitedUrls evs).map (pageQuotes site)).flatten ∧
      r.quotesCsv = ["text", "author", "tags"] :: r.all_quotes.map csvQuoteRow := by
  obtain ⟨hcr, hq, -⟩ := main_finished_inv hmain
  refine ⟨?_, hq⟩
  simpa using crawl_done_quotes site fuel (some BASE_URL) [] r.all_quotes []
    r.authors_cache evs hcr

/-- Witness for C6: a run where the same quote appears on two pages keeps
both copies, in visit order. -/
theorem C6_witness :
    main twoPageSite 3 = (.finished twoPageRun, twoPageEvs) ∧
      (twoPageRun.all_quotes =
          ((visitedUrls twoPageEvs).map (pageQuotes twoPageSite)).flatten ∧
        twoPageRun.quotesCsv =
          ["text", "author", "tags"] :: twoPageRun.all_quotes.map csvQuoteRow) :=
  ⟨by decide,
    C6_quotes_accumulate_in_visit_order twoPageSite 3 twoPageRun twoPageEvs
      (by decide)⟩

/-- Claim C7: the crawl frontier advances solely through each fetched page's
next control and stops the first time a page indicates no next page: on a
finite acyclic chain of n pages with sufficient fuel, the loop terminates
normally having visited exactly those n pages in order. -/
theorem C7_pagination_visits_chain_and_stops (site : Site)
    (chain : List (String × ListingPage)) (fuel : Nat)
    (hch : isChain site chain) (hlen : chain.length ≤ fuel) :
    (crawl site fuel (headUrl? chain) [] []).1.isDone = true ∧
      visitedUrls (crawl site fuel (headUrl? chain) [] []).2 =
        chain.map Prod.fst := by
  obtain ⟨qs', c', h1, h2⟩ := crawl_follows_chain site chain fuel [] [] hch hlen
  exact ⟨by rw [h1]; rfl, h2⟩

/-- Witness for C7: the three-page chain is visited exactly and the loop
terminates. -/
theorem C7_witness :
    isChain chainSite threeChain ∧ threeChain.length ≤ 3 ∧
      ((crawl chainSite 3 (headUrl? threeChain) [] []).1.isDone = true ∧
        visitedUrls (crawl chainSite 3 (headUrl? threeChain) [] []).2 =
          threeChain.map Prod.fst) := by
  have hch : isChain chainSite threeChain := by
    simp only [isChain, threeChain]
    refine ⟨by decide, by decide, by decide, by decide, by decide, by decide,
      by decide, by decide, by decide, by decide, by decide, by decide, trivial⟩
  exact ⟨hch, by decide,
    C7_pagination_visits_chain_and_stops chainSite threeChain 3 hch (by decide)⟩

/-- Claim C8 counterexample: a quote with no tags (vacuously comma-free) does
not round-trip — the written field is `""`, which splits to `[""]`, not `[]`. -/
theorem C8_counterexample :
    splitTagsField (joinTags qNoTags.tags) ≠ qNoTags.tags := by decide

/-- Claim C8 (amended): for every quote with at least one tag whose individual
tags contain no embedded commas, splitting the written tags field on ", "
reconstructs the original tag sequence exactly. -/
theorem C8_tags_roundtrip (q : Quote) (hne : q.tags ≠ [])
    (hcf : ∀ t ∈ q.tags, ',' ∉ t.data) :
    splitTagsField (joinTags q.tags) = q.tags := by
  obtain ⟨text, author, tags⟩ := q
  match tags, hne with
  | t :: ts, _ =>
    have h1 : ',' ∉ t.data := hcf t (List.mem_cons_self t ts)
    have h2 : ∀ x ∈ ts.map String.data, ',' ∉ x := by
      intro x hx
      obtain ⟨a, ha, rfl⟩ := List.mem_map.mp hx
      exact hcf a (List.mem_cons_of_mem t ha)
    have hmk : ∀ s : String, String.mk s.data = s := fun s => rfl
    unfold splitTagsField
    rw [joinTags_data]
    have hmap : ts.map (fun a => ',' :: ' ' :: a.data) =
        (ts.map String.data).map (fun a => ',' :: ' ' :: a) := by
      rw [List.map_map]; rfl
    rw [hmap, splitCS_flatten (ts.map String.data) t.data h1 h2]
    simp only [List.map_cons, List.map_map]
    have hcomp : ((fun cs => String.mk cs) ∘ String.data) = fun s : String => s := by
      funext s
      rfl
    rw [hcomp, List.map_id']

/-- Witness for C8 (amended): two comma-free tags round-trip. -/
theorem C8_witness : splitTagsField (joinTags qTwoTags.tags) = qTwoTags.tags :=
  C8_tags_roundtrip qTwoTags (by decide) (by decide)

/-- Claim C9: every author-fetch step in the execution is immediately followed
by the pacing delay (the fixed `time.sleep` after each author fetch). -/
theorem C9_pacing_delay_after_author_fetch (site : Site) (fuel : Nat)
    (pre : List Event) (u : String) (post : List Event)
    (h : (main site fuel).2 = pre ++ .authorFetch u :: post) :
    post.head? = some .sleep := by
  have hp : SleepPaced (main site fuel).2 := by
    rw [main_trace]
    exact crawl_sleepPaced site fuel (some BASE_URL) [] []
  obtain ⟨rest, hr⟩ := hp pre u post h
  rw [hr]; rfl

/-- Witness for C9 at a concrete run with one author fetch. -/
theorem C9_witness :
    (main oneBadAuthorSite 2).2 =
        [.pageFetch BASE_URL] ++ .authorFetch aliceUrl :: [.sleep] ∧
      ([Event.sleep] : List Event).head? = some .sleep :=
  ⟨by decide,
    C9_pacing_delay_after_author_fetch oneBadAuthorSite 2
      [.pageFetch BASE_URL] aliceUrl [.sleep] (by decide)⟩

/-- Claim C10: when resolving an author URL raises, `main` still inserts an
all-empty Author into the cache under that URL, the URL is fetched exactly
once in the whole run (never re-attempted), and the empty record still
produces a row of the authors CSV. -/
theorem C10_failed_author_still_cached_once (site : Site) (fuel : Nat)
    (r : RunSuccess) (evs : List Event) (u : String) (e : CrawlError)
    (hmain : main site fuel = (.finished r, evs))
    (hAF : Event.authorFetch u ∈ evs)
    (herr : get_author_info site u = .error e) :
    assocFind? r.authors_cache u = some ⟨"", "", "", ""⟩ ∧
      countAF u evs = 1 ∧
      csvAuthorRow ⟨"", "", "", ""⟩ ∈ r.authorsCsv := by
  obtain ⟨hcr, -, ha⟩ := main_finished_inv hmain
  have hres : resolve_author site u = ⟨"", "", "", ""⟩ := by
    unfold resolve_author; rw [herr]
  have hcached := crawl_cached_of_AF site u fuel (some BASE_URL) []
    r.all_quotes [] r.authors_cache evs hcr (countAF_pos_of_mem hAF)
  rw [hres] at hcached
  refine ⟨hcached, ?_, ?_⟩
  · have hle := crawl_countAF_le_one site u fuel (some BASE_URL) [] []
    have hev : (crawl site fuel (some BASE_URL) [] []).2 = evs := by rw [hcr]
    rw [hev] at hle
    have hge := countAF_pos_of_mem hAF
    omega
  · rw [ha]
    exact List.mem_cons_of_mem _
      (List.mem_map.mpr ⟨(u, ⟨"", "", "", ""⟩), assocFind?_mem hcached, rfl⟩)

/-- Witness for C10: the failing author of `oneBadAuthorSite` is cached empty,
fetched once, and present in the authors CSV. -/
theorem C10_witness :
    main oneBadAuthorSite 2 = (.finished oneBadAuthorRun, oneBadAuthorEvs) ∧
      Event.authorFetch aliceUrl ∈ oneBadAuthorEvs ∧
      get_author_info oneBadAuthorSite aliceUrl = .error (.transport "down") ∧
      (assocFind? oneBadAuthorRun.authors_cache aliceUrl = some ⟨"", "", "", ""⟩ ∧
        countAF aliceUrl oneBadAuthorEvs = 1 ∧
        csvAuthorRow ⟨"", "", "", ""⟩ ∈ oneBadAuthorRun.authorsCsv) :=
  ⟨by decide, by decide, by decide,
    C10_failed_author_still_cached_once oneBadAuthorSite 2 oneBadAuthorRun
      oneBadAuthorEvs aliceUrl (.transport "down") (by decide) (by decide)
      (by decide)⟩

end Scrape
